import Mathlib

/-!
Shallow embedding of `scottidler/cidr` (`src/main.rs`), a command-line tool
that expands terse CIDR specifier tokens and pretty-prints network data.

Strings are modelled as `List Char`; Rust `u32` values as `Nat` with
explicit `% 2 ^ 32` where wraparound matters.  The external dependencies
(`std::net::Ipv4Addr` parsing/display and the `ipnetwork` crate's
`Ipv4Network`) are modelled from their documented semantics, since their
sources are not part of this repository.
-/

namespace Cidr

/-- Rust strings, modelled as lists of characters. -/
abbrev Str := List Char

/-- Convert a Lean string literal to the `Str` model. -/
def toStr (s : String) : Str := s.data

/-- Split a string at every occurrence of `sep` (the separator chars are
dropped).  Models the tokenization performed by the Rust parsers we embed;
always returns at least one (possibly empty) group. -/
def splitOnChar (sep : Char) : Str → List Str
  | [] => [[]]
  | c :: cs =>
    if c = sep then [] :: splitOnChar sep cs
    else
      match splitOnChar sep cs with
      | g :: gs => (c :: g) :: gs
      | [] => [[c]]

/-- Numeric value of a string of decimal digits (left fold, as a decimal
reader computes it). -/
def octetVal (cs : Str) : Nat :=
  cs.foldl (fun acc c => acc * 10 + (c.toNat - 48)) 0

/-- Whether `cs` is a valid IPv4 octet for Rust's `Ipv4Addr` parser:
nonempty, all decimal digits, no leading zero (except `"0"` itself),
and value at most 255. -/
def isValidOctet (cs : Str) : Bool :=
  !cs.isEmpty && cs.all (·.isDigit) &&
    (cs.length == 1 || cs.head? != some '0') && octetVal cs ≤ 255

/-- The 32-bit value of the dotted quad `a.b.c.d`. -/
def ipv4FromOctets (a b c d : Nat) : Nat :=
  ((a * 256 + b) * 256 + c) * 256 + d

/-- Models Rust `Ipv4Addr::from_str`: exactly four dot-separated decimal
octets, each in `[0, 255]`, with no leading zeros; yields the 32-bit value. -/
def parseIpv4 (s : Str) : Option Nat :=
  match splitOnChar '.' s with
  | [a, b, c, d] =>
    if isValidOctet a && isValidOctet b && isValidOctet c && isValidOctet d then
      some (ipv4FromOctets (octetVal a) (octetVal b) (octetVal c) (octetVal d))
    else none
  | _ => none

/-- Decimal digits of a natural number (via `Nat.toDigits`). -/
def natDigits (n : Nat) : Str := Nat.toDigits 10 n

/-- Models Rust `Display for Ipv4Addr`: the dotted-quad decimal rendering
of a 32-bit address value. -/
def ipv4Str (ip : Nat) : Str :=
  natDigits (ip / 16777216 % 256) ++ '.' :: natDigits (ip / 65536 % 256)
    ++ '.' :: natDigits (ip / 256 % 256) ++ '.' :: natDigits (ip % 256)

/-! ### The specifier expander (`expand_args`, `src/main.rs` lines 46-79) -/

/-- The default base IP `Ipv4Addr::new(192, 168, 1, 1)` seeded into
`last_ip` before any token is processed (line 48). -/
def default_ip : Nat := ipv4FromOctets 192 168 1 1

/-- Outcome of one iteration of the `for raw in raw_args` loop body
(lines 52-76): a resolved spec plus the updated `last_ip`, an address
parse error propagated by `?`, or the panic of `last_ip.unwrap()`.
The `err` payload is bookkeeping of the model only — it records which
substring's parse failed, so that theorems can speak about *where* a run
aborts.  The program's own error value at that point is std's
`AddrParseError`, which is fieldless and records nothing about the input;
see `addrParseError` and `expand_args_error` for the faithful model of
the program-visible error. -/
inductive StepOut where
  | ok (spec : Str) (last : Option Nat)
  | err (ipStr : Str)
  | panicked
deriving DecidableEq

/-- One iteration of the loop body of `expand_args` (lines 52-76):
`raw.starts_with('/')` splits the leading-slash forms from the bare form;
a further `/` in the remainder distinguishes the explicit-override form
from the prefix-only shorthand, which formats `last_ip.unwrap()` in front
of the prefix. -/
def expand_step (last_ip : Option Nat) (raw : Str) : StepOut :=
  if raw.head? = some '/' then
    let tok := raw.tail
    if tok.contains '/' then
      let ip_str := tok.takeWhile (· != '/')
      match parseIpv4 ip_str with
      | none => .err ip_str
      | some ip => .ok tok (some ip)
    else
      match last_ip with
      | none => .panicked
      | some ip => .ok (ipv4Str ip ++ '/' :: tok) last_ip
  else
    let ip_str := raw.takeWhile (· != '/')
    match parseIpv4 ip_str with
    | none => .err ip_str
    | some ip => .ok raw (some ip)

/-- Result of a whole `expand_args` run: the resolved specs, an address
parse error, or a panic.  As in `StepOut`, the `err` payload is
bookkeeping of the model (which substring failed); the error value the
program propagates is fieldless — `expand_args_error` below models what
the program actually reports. -/
inductive ExpandOut where
  | ok (specs : List Str)
  | err (ipStr : Str)
  | panicked
deriving DecidableEq

/-- The loop of `expand_args` (lines 52-76) threading `last_ip`; an error
or panic aborts the run, discarding the partial `out` vector. -/
def expand_go (last_ip : Option Nat) : List Str → ExpandOut
  | [] => .ok []
  | raw :: rest =>
    match expand_step last_ip raw with
    | .ok spec last =>
      match expand_go last rest with
      | .ok specs => .ok (spec :: specs)
      | .err s => .err s
      | .panicked => .panicked
    | .err s => .err s
    | .panicked => .panicked

/-- `expand_args` (lines 46-79): run the loop with `last_ip` seeded to
`Some(default_ip)` (line 49). -/
def expand_args (raw_args : List Str) : ExpandOut :=
  expand_go (some default_ip) raw_args

/-- The address substring embedded in a raw token, if any: for a bare
token everything before the first `/`; for an explicit-override token the
substring between the first two slashes; a shorthand token embeds none. -/
def embeddedAddr (raw : Str) : Option Str :=
  if raw.head? = some '/' then
    if raw.tail.contains '/' then some (raw.tail.takeWhile (· != '/'))
    else none
  else some (raw.takeWhile (· != '/'))

/-- Modelled from the spec, section 4.1: the expander described as a
left-to-right fold whose step takes a total "last seen address"
accumulator.  A bare token passes through unchanged and replaces the
accumulator with its address part; a shorthand token resolves to
`<accumulator>/prefixLength` leaving the accumulator unchanged; an
explicit-override token resolves to the token with the leading `/`
stripped and replaces the accumulator with the embedded address. -/
def specExpandStep (acc : Nat) (raw : Str) : Option (Str × Nat) :=
  if raw.head? = some '/' then
    if raw.tail.contains '/' then
      (parseIpv4 (raw.tail.takeWhile (· != '/'))).map fun ip => (raw.tail, ip)
    else some (ipv4Str acc ++ '/' :: raw.tail, acc)
  else
    (parseIpv4 (raw.takeWhile (· != '/'))).map fun ip => (raw, ip)

/-- Modelled from the spec, section 4.1: the fold of `specExpandStep`
over the token list, all-or-nothing. -/
def specExpandFrom (acc : Nat) : List Str → Option (List Str)
  | [] => some []
  | raw :: rest =>
    (specExpandStep acc raw).bind fun sa =>
      (specExpandFrom sa.2 rest).map fun specs => sa.1 :: specs

/-- Modelled from the spec, sections 3 and 4.1: the fold seeded with the
documented default address 192.168.1.1. -/
def specExpand (args : List Str) : Option (List Str) :=
  specExpandFrom (ipv4FromOctets 192 168 1 1) args

/-- The specs of an expansion outcome, `none` on error or panic. -/
def ExpandOut.specs? : ExpandOut → Option (List Str)
  | .ok specs => some specs
  | _ => none

/-- Models the error value the program propagates out of `expand_args`:
`Ipv4Addr::from_str(ip_str)?` converts std's `AddrParseError` into the
report returned by the function.  `AddrParseError` is fieldless and its
`Display` output is the fixed string below — no part of the offending
token or substring is embedded in it. -/
def addrParseError : Str := toStr "invalid IPv4 address syntax"

/-- The program-visible error of an `expand_args` run: whenever the run
fails, the propagated error displays the one fixed `AddrParseError`
message, independent of which token or substring caused the failure. -/
def expand_args_error (raw_args : List Str) : Option Str :=
  match expand_args raw_args with
  | .err _ => some addrParseError
  | _ => none

/-! ### The CIDR engine (`parse_network`, `src/main.rs` lines 82-96) -/

/-- The error cases of `parse_network`, named after its `wrap_err`
messages: "Invalid IP address", "Invalid network mask", "Failed to build
network from mask", "Invalid address/prefix format". -/
inductive ParseErr where
  | invalidIp
  | invalidMask
  | buildFail
  | invalidFormat
deriving DecidableEq

/-- Models the `ipnetwork` crate's `Ipv4Network`: an address and a prefix
length (field `prefix` in the crate; renamed `prefixLen` here because
`prefix` is a reserved keyword in Lean). -/
structure Ipv4Network where
  addr : Nat
  prefixLen : Nat
deriving DecidableEq

/-- Models `Ipv4Network::new(ip, prefix)`: fails exactly when the prefix
exceeds 32. -/
def Ipv4Network.new (ip pfx : Nat) : Option Ipv4Network :=
  if pfx ≤ 32 then some ⟨ip, pfx⟩ else none

/-- Models `Ipv4Network::mask()`: `prefixLen` leading one-bits followed by
`32 - prefixLen` zero-bits, as a 32-bit value. -/
def Ipv4Network.mask (net : Ipv4Network) : Nat :=
  2 ^ 32 - 2 ^ (32 - net.prefixLen)

/-- Models `Ipv4Network::network()`: the address bitwise-ANDed with the
mask. -/
def Ipv4Network.network (net : Ipv4Network) : Nat :=
  Nat.land net.addr net.mask

/-- Models `Ipv4Network::broadcast()`: the address bitwise-ORed with the
complement of the mask (`!mask` on `u32` is `2 ^ 32 - 1 - mask`). -/
def Ipv4Network.broadcast (net : Ipv4Network) : Nat :=
  Nat.lor net.addr (2 ^ 32 - 1 - net.mask)

/-- Models `u32::trailing_zeros` with the fuel bounded by the 32-bit
width: counting low zero bits, 32 for the value 0. -/
def trailingZerosAux : Nat → Nat → Nat
  | 0, _ => 0
  | fuel + 1, n => if n % 2 = 1 then 0 else trailingZerosAux fuel (n / 2) + 1

/-- `u32::trailing_zeros` (used at line 91). -/
def trailing_zeros (n : Nat) : Nat := trailingZerosAux 32 n

/-- Models Rust `u8::from_str` as used by `Ipv4Network::from_str` for the
prefix part: decimal digits with value at most 255 (the optional leading
`+` sign accepted by Rust's integer parser is not modelled; no claim
depends on it). -/
def parseU8 (s : Str) : Option Nat :=
  if !s.isEmpty && s.all (·.isDigit) && octetVal s ≤ 255 then some (octetVal s)
  else none

/-- Models `Ipv4Network::from_str`: `"A/p"` parses the dotted quad `A` and
the integer prefix `p` (rejected above 32 by the constructor); a bare
`"A"` gets prefix 32. -/
def ipv4NetworkFromStr (s : Str) : Option Ipv4Network :=
  match splitOnChar '/' s with
  | [a] => (parseIpv4 a).bind fun ip => Ipv4Network.new ip 32
  | [a, p] =>
    (parseIpv4 a).bind fun ip => (parseU8 p).bind fun pfx => Ipv4Network.new ip pfx
  | _ => none

/-- `parse_network` (lines 82-96).  With an explicit mask the whole
`address` argument is parsed as an `Ipv4Addr`, the mask as a second
`Ipv4Addr`, and the prefix is `32 - mask.trailing_zeros()`; without a
mask the argument is parsed as `Ipv4Network::from_str`. -/
def parse_network (address : Str) : Option Str → Except ParseErr Ipv4Network
  | some mask_str =>
    match parseIpv4 address with
    | none => .error .invalidIp
    | some ip =>
      match parseIpv4 mask_str with
      | none => .error .invalidMask
      | some mask_u32 =>
        match Ipv4Network.new ip (32 - trailing_zeros mask_u32) with
        | none => .error .buildFail
        | some net => .ok net
  | none =>
    match ipv4NetworkFromStr address with
    | none => .error .invalidFormat
    | some net => .ok net

/-! ### Pretty-printing (`print_network`, `src/main.rs` lines 100-181) -/

/-- `let count: u64 = 1 << (32 - prefix)` (line 105): the shift performed
in 64-bit width. -/
def countOf (p : Nat) : Nat := (1 <<< (32 - p)) % 2 ^ 64

/-- `let usable = if count > 2 { count - 2 } else { 0 }` (line 158). -/
def usableOf (p : Nat) : Nat :=
  if countOf p > 2 then countOf p - 2 else 0

/-- One printed line of `print_network`, abstracting presentation: colors,
label padding and the dual hex/dotted renderings are dropped; each line
keeps its label kind and the 32-bit value (or count) it displays. -/
inductive Line where
  | header (netaddr pfx : Nat)
  | network (addr : Nat)
  | broadcast (addr : Nat)
  | netmask (addr : Nat)
  | oneAddressTotal
  | firstHost (addr : Nat)
  | lastHost (addr : Nat)
  | usableAddrs (n : Nat)
deriving DecidableEq

/-- `print_network` (lines 100-181) as the list of lines it prints, in
order: the header and the Network/Broadcast/Netmask lines are printed
unconditionally; when `count == 1` a lone "1 Address Total:" label line
follows and the function returns early; otherwise the First/Last Host
lines are printed when `usable > 0` (first host `netaddr + 1`, last host
`bcast - 1`, both in wrapping `u32` arithmetic), followed by the
"Usable Addrs:" line.  The `labels` vector of the source only fixes the
label padding width and is dropped with the rest of the presentation. -/
def print_network (net : Ipv4Network) : List Line :=
  [Line.header net.network net.prefixLen, Line.network net.network,
   Line.broadcast net.broadcast, Line.netmask net.mask]
  ++ (if countOf net.prefixLen = 1 then [Line.oneAddressTotal]
      else
        (if usableOf net.prefixLen > 0 then
          [Line.firstHost ((net.network + 1) % 2 ^ 32),
           Line.lastHost ((net.broadcast + (2 ^ 32 - 1)) % 2 ^ 32)]
         else [])
        ++ [Line.usableAddrs (usableOf net.prefixLen)])

/-! ### Lemmas about the expander -/

/-- A token with a bad embedded address makes the loop body fail, naming
that substring, and makes the spec-side step fail. -/
theorem expand_step_err {raw a : Str} (ip : Nat)
    (hE : embeddedAddr raw = some a) (hP : parseIpv4 a = none) :
    expand_step (some ip) raw = .err a ∧ specExpandStep ip raw = none := by
  simp only [embeddedAddr] at hE
  simp only [expand_step, specExpandStep]
  by_cases h1 : raw.head? = some '/'
  · rw [if_pos h1] at hE
    rw [if_pos h1, if_pos h1]
    by_cases h2 : raw.tail.contains '/' = true
    · rw [if_pos h2] at hE
      rw [if_pos h2, if_pos h2]
      obtain rfl : raw.tail.takeWhile (· != '/') = a := Option.some.inj hE
      rw [hP]
      exact ⟨rfl, rfl⟩
    · rw [if_neg h2] at hE
      exact Option.noConfusion hE
  · rw [if_neg h1] at hE
    rw [if_neg h1, if_neg h1]
    obtain rfl : raw.takeWhile (· != '/') = a := Option.some.inj hE
    rw [hP]
    exact ⟨rfl, rfl⟩

/-- A token with a good embedded address makes the loop body succeed with
the parsed address as the new accumulator, in agreement with the
spec-side step. -/
theorem expand_step_ok {raw a : Str} {j : Nat} (ip : Nat)
    (hE : embeddedAddr raw = some a) (hP : parseIpv4 a = some j) :
    ∃ spec, expand_step (some ip) raw = .ok spec (some j)
      ∧ specExpandStep ip raw = some (spec, j) := by
  simp only [embeddedAddr] at hE
  simp only [expand_step, specExpandStep]
  by_cases h1 : raw.head? = some '/'
  · rw [if_pos h1] at hE
    rw [if_pos h1, if_pos h1]
    by_cases h2 : raw.tail.contains '/' = true
    · rw [if_pos h2] at hE
      rw [if_pos h2, if_pos h2]
      obtain rfl : raw.tail.takeWhile (· != '/') = a := Option.some.inj hE
      rw [hP]
      exact ⟨raw.tail, rfl, rfl⟩
    · rw [if_neg h2] at hE
      exact Option.noConfusion hE
  · rw [if_neg h1] at hE
    rw [if_neg h1, if_neg h1]
    obtain rfl : raw.takeWhile (· != '/') = a := Option.some.inj hE
    rw [hP]
    exact ⟨raw, rfl, rfl⟩

/-- A shorthand token (no embedded address) makes the loop body format the
accumulator in front of the prefix part and keep the accumulator, in
agreement with the spec-side step. -/
theorem expand_step_shorthand {raw : Str} (ip : Nat)
    (hE : embeddedAddr raw = none) :
    expand_step (some ip) raw = .ok (ipv4Str ip ++ '/' :: raw.tail) (some ip)
      ∧ specExpandStep ip raw = some (ipv4Str ip ++ '/' :: raw.tail, ip) := by
  simp only [embeddedAddr] at hE
  simp only [expand_step, specExpandStep]
  by_cases h1 : raw.head? = some '/'
  · rw [if_pos h1] at hE
    rw [if_pos h1, if_pos h1]
    by_cases h2 : raw.tail.contains '/' = true
    · rw [if_pos h2] at hE
      exact Option.noConfusion hE
    · rw [if_neg h2, if_neg h2]
      exact ⟨rfl, rfl⟩
  · rw [if_neg h1] at hE
    exact Option.noConfusion hE

/-- Main induction on the token list: starting from any `Some` state the
loop either succeeds, agreeing with the spec-side fold, preserving the
length and having parsed every embedded address, or fails naming the
embedded address substring of an offending token, with the spec-side fold
failing as well. -/
theorem expand_go_master (args : List Str) : ∀ ip : Nat,
    (∃ specs, expand_go (some ip) args = .ok specs
      ∧ specExpandFrom ip args = some specs
      ∧ specs.length = args.length
      ∧ ∀ raw ∈ args, ∀ a, embeddedAddr raw = some a → ∃ j, parseIpv4 a = some j)
    ∨ (∃ s, expand_go (some ip) args = .err s ∧ specExpandFrom ip args = none
      ∧ ∃ raw ∈ args, embeddedAddr raw = some s ∧ parseIpv4 s = none) := by
  induction args with
  | nil => intro ip; left; exact ⟨[], rfl, rfl, rfl, by simp⟩
  | cons raw rest IH =>
    intro ip
    cases hE : embeddedAddr raw with
    | none =>
      obtain ⟨hstep, hspec⟩ := expand_step_shorthand ip hE
      rcases IH ip with ⟨specs, hgo, hsf, hlen, hall⟩ | ⟨s, hgo, hsf, raw2, hmem, hEa, hPa⟩
      · left
        refine ⟨(ipv4Str ip ++ '/' :: raw.tail) :: specs, ?_, ?_, ?_, ?_⟩
        · simp only [expand_go, hstep, hgo]
        · simp [specExpandFrom, hspec, hsf]
        · simp [hlen]
        · intro raw2 hmem a hEa
          rcases List.mem_cons.mp hmem with rfl | hmem2
          · rw [hE] at hEa
            exact Option.noConfusion hEa
          · exact hall raw2 hmem2 a hEa
      · right
        refine ⟨s, ?_, ?_, raw2, List.mem_cons_of_mem _ hmem, hEa, hPa⟩
        · simp only [expand_go, hstep, hgo]
        · simp [specExpandFrom, hspec, hsf]
    | some a =>
      cases hP : parseIpv4 a with
      | none =>
        obtain ⟨hstep, hspec⟩ := expand_step_err ip hE hP
        right
        refine ⟨a, ?_, ?_, raw, List.mem_cons_self _ _, hE, hP⟩
        · simp only [expand_go, hstep]
        · simp [specExpandFrom, hspec]
      | some j =>
        obtain ⟨spec, hstep, hspec⟩ := expand_step_ok ip hE hP
        rcases IH j with ⟨specs, hgo, hsf, hlen, hall⟩ | ⟨s, hgo, hsf, raw2, hmem, hEa, hPa⟩
        · left
          refine ⟨spec :: specs, ?_, ?_, ?_, ?_⟩
          · simp only [expand_go, hstep, hgo]
          · simp [specExpandFrom, hspec, hsf]
          · simp [hlen]
          · intro raw2 hmem a2 hEa
            rcases List.mem_cons.mp hmem with rfl | hmem2
            · rw [hE] at hEa
              obtain rfl := Option.some.inj hEa
              exact ⟨j, hP⟩
            · exact hall raw2 hmem2 a2 hEa
        · right
          refine ⟨s, ?_, ?_, raw2, List.mem_cons_of_mem _ hmem, hEa, hPa⟩
          · simp only [expand_go, hstep, hgo]
          · simp [specExpandFrom, hspec, hsf]

/-- From a `Some` state the loop never reaches the `panicked` outcome. -/
theorem expand_go_not_panicked (args : List Str) (ip : Nat) :
    expand_go (some ip) args ≠ .panicked := by
  rcases expand_go_master args ip with ⟨specs, hgo, -, -, -⟩ | ⟨s, hgo, -, -⟩ <;>
    simp [hgo]

/-! ### Lemmas about the engine -/

/-- The fuelled trailing-zero count never exceeds its fuel. -/
theorem trailingZerosAux_le (fuel : Nat) : ∀ n, trailingZerosAux fuel n ≤ fuel := by
  induction fuel with
  | zero => intro n; simp [trailingZerosAux]
  | succ f IH =>
    intro n
    unfold trailingZerosAux
    split
    · omega
    · have h2 := IH (n / 2)
      omega

/-- `u32::trailing_zeros` is at most the bit width 32. -/
theorem trailing_zeros_le (n : Nat) : trailing_zeros n ≤ 32 :=
  trailingZerosAux_le 32 n

/-- In explicit-mask mode, when both the whole address argument and the
mask parse as dotted quads, `parse_network` succeeds with the parsed
address and the prefix derived from the mask's trailing zeros. -/
theorem parse_mask_ok {A M : Str} {a m : Nat}
    (hA : parseIpv4 A = some a) (hM : parseIpv4 M = some m) :
    parse_network A (some M) = .ok ⟨a, 32 - trailing_zeros m⟩ := by
  simp only [parse_network]
  rw [hA, hM]
  simp only [Ipv4Network.new]
  rw [if_pos (Nat.sub_le _ _)]

/-- A character different from the separator ends up inside one of the
groups produced by `splitOnChar`. -/
theorem exists_mem_splitOnChar {sep c : Char} (hne : c ≠ sep) :
    ∀ s : Str, c ∈ s → ∃ g ∈ splitOnChar sep s, c ∈ g := by
  intro s
  induction s with
  | nil => intro h; exact absurd h (List.not_mem_nil c)
  | cons x cs IH =>
    intro hmem
    unfold splitOnChar
    by_cases hx : x = sep
    · rw [if_pos hx]
      have hc : c ∈ cs := by
        rcases List.mem_cons.mp hmem with rfl | h
        · exact absurd hx hne
        · exact h
      obtain ⟨g, hg, hcg⟩ := IH hc
      exact ⟨g, List.mem_cons_of_mem _ hg, hcg⟩
    · rw [if_neg hx]
      rcases List.mem_cons.mp hmem with rfl | h
      · cases hs : splitOnChar sep cs with
        | nil => exact ⟨[c], by simp, by simp⟩
        | cons g gs => exact ⟨c :: g, by simp, by simp⟩
      · obtain ⟨g, hg, hcg⟩ := IH h
        cases hs : splitOnChar sep cs with
        | nil =>
          rw [hs] at hg
          exact absurd hg (List.not_mem_nil g)
        | cons g0 gs =>
          rw [hs] at hg
          rcases List.mem_cons.mp hg with rfl | hg2
          · exact ⟨x :: g, by simp, List.mem_cons_of_mem _ hcg⟩
          · exact ⟨g, by simp [hg2], hcg⟩

/-- A group containing a slash is not a valid octet (a slash is not a
decimal digit). -/
theorem isValidOctet_of_slash {g : Str} (h : '/' ∈ g) : isValidOctet g = false := by
  unfold isValidOctet
  have hall : g.all (·.isDigit) = false := by
    by_contra hcon
    have h2 : g.all (·.isDigit) = true := by
      cases hb : g.all (·.isDigit)
      · exact absurd hb hcon
      · rfl
    have h3 := List.all_eq_true.mp h2 '/' h
    exact absurd h3 (by decide)
  simp [hall]

/-- A string containing a slash never parses as an IPv4 address. -/
theorem parseIpv4_of_slash {s : Str} (h : '/' ∈ s) : parseIpv4 s = none := by
  obtain ⟨g, hg, hcg⟩ := exists_mem_splitOnChar (by decide : '/' ≠ '.') s h
  have hbad := isValidOctet_of_slash hcg
  unfold parseIpv4
  cases hsp : splitOnChar '.' s with
  | nil => rfl
  | cons a rest =>
    rw [hsp] at hg
    rcases rest with - | ⟨b, rest⟩
    · rfl
    rcases rest with - | ⟨c, rest⟩
    · rfl
    rcases rest with - | ⟨d, rest⟩
    · rfl
    rcases rest with - | ⟨e, rest⟩
    · show (if (isValidOctet a && isValidOctet b && isValidOctet c && isValidOctet d) = true
          then some (ipv4FromOctets (octetVal a) (octetVal b) (octetVal c) (octetVal d))
          else none) = none
      rw [if_neg]
      intro hcond
      simp only [Bool.and_eq_true] at hcond
      obtain ⟨⟨⟨ha2, hb2⟩, hc2⟩, hd2⟩ := hcond
      simp only [List.mem_cons, List.not_mem_nil, or_false] at hg
      rcases hg with rfl | rfl | rfl | rfl
      · rw [ha2] at hbad; exact Bool.noConfusion hbad
      · rw [hb2] at hbad; exact Bool.noConfusion hbad
      · rw [hc2] at hbad; exact Bool.noConfusion hbad
      · rw [hd2] at hbad; exact Bool.noConfusion hbad
    · rfl

/-- For a prefix in range, the 64-bit shift does not wrap: the count is
exactly `2 ^ (32 - p)`. -/
theorem countOf_eq {p : Nat} (hp : p ≤ 32) : countOf p = 2 ^ (32 - p) := by
  unfold countOf
  rw [Nat.shiftLeft_eq, one_mul]
  exact Nat.mod_eq_of_lt
    (lt_of_le_of_lt (Nat.pow_le_pow_right (by norm_num) (by omega : 32 - p ≤ 32))
      (by norm_num))

/-! ### The claims -/

/-- Claim C1: the expander is a left-to-right fold whose "last seen
address" accumulator is seeded with 192.168.1.1 before any token is
processed; bare tokens pass through unchanged and set the accumulator to
their address part, shorthand tokens resolve to `<accumulator>/prefix`
leaving the accumulator, explicit-override tokens set the accumulator to
the embedded address and resolve to the token with the leading slash
stripped.  Formally: `expand_args` refines the spec-side fold
`specExpand`, with failures matching. -/
theorem C1_expander_fold (args : List Str) :
    (expand_args args).specs? = specExpand args
    ∧ (specExpand args = none → ∃ s, expand_args args = ExpandOut.err s) := by
  have ha : expand_args args = expand_go (some default_ip) args := rfl
  have hd : specExpand args = specExpandFrom default_ip args := rfl
  rcases expand_go_master args default_ip with ⟨specs, hgo, hsf, -, -⟩ | ⟨s, hgo, hsf, -⟩
  · constructor
    · rw [ha, hgo, hd, hsf]; rfl
    · intro hnone
      rw [hd, hsf] at hnone
      exact Option.noConfusion hnone
  · constructor
    · rw [ha, hgo, hd, hsf]; rfl
    · intro hnone
      exact ⟨s, by rw [ha, hgo]⟩

theorem C1_expander_fold_witness :
    ∃ s, expand_args [toStr "10.0.0.999/24"] = ExpandOut.err s :=
  (C1_expander_fold [toStr "10.0.0.999/24"]).2 (by decide)

/-- Claim C7 fails on the code in one respect: the error does not name
the offending token.  Both of the distinct offending tokens below make
the run fail with the *same* program-visible error — the fixed
`AddrParseError` message — which therefore cannot identify which token
(or substring) failed; neither the token nor its address substring
occurs in that message. -/
theorem C7_counterexample :
    expand_args_error [toStr "10.0.0.999/24"] = some addrParseError
    ∧ expand_args_error [toStr "172.16.0.300/16"] = some addrParseError
    ∧ ¬ (toStr "10.0.0.999/24") <:+: addrParseError
    ∧ ¬ (toStr "10.0.0.999") <:+: addrParseError := by decide

/-- Claim C7, amended: expansion over a token batch is all-or-nothing —
it fails exactly when some token's embedded address substring is not a
syntactically valid IPv4 address, returns no partial results on failure,
and on success returns a resolved list of the same length as the input;
the propagated ParseError, however, is the address parser's fieldless
error, whose fixed message names neither the offending token nor its
substring. -/
theorem C7_all_or_nothing_fieldless (args : List Str) :
    ((∃ s, expand_args args = ExpandOut.err s)
      ↔ ∃ raw ∈ args, ∃ a, embeddedAddr raw = some a ∧ parseIpv4 a = none)
    ∧ (∀ s, expand_args args = ExpandOut.err s
        → expand_args_error args = some addrParseError)
    ∧ (∀ specs, expand_args args = ExpandOut.ok specs → specs.length = args.length) := by
  have ha : expand_args args = expand_go (some default_ip) args := rfl
  rcases expand_go_master args default_ip with
    ⟨specs, hgo, hsf, hlen, hall⟩ | ⟨s, hgo, hsf, raw, hmem, hEa, hPa⟩
  · refine ⟨⟨?_, ?_⟩, ?_, ?_⟩
    · rintro ⟨s, hs⟩
      rw [ha, hgo] at hs
      exact ExpandOut.noConfusion hs
    · rintro ⟨raw, hmem, a, hEa, hPa⟩
      obtain ⟨j, hj⟩ := hall raw hmem a hEa
      rw [hj] at hPa
      exact Option.noConfusion hPa
    · intro s hs
      rw [ha, hgo] at hs
      exact ExpandOut.noConfusion hs
    · intro specs2 hs
      rw [ha, hgo] at hs
      obtain rfl := ExpandOut.ok.inj hs
      exact hlen
  · refine ⟨⟨?_, ?_⟩, ?_, ?_⟩
    · rintro -
      exact ⟨raw, hmem, s, hEa, hPa⟩
    · rintro -
      exact ⟨s, by rw [ha, hgo]⟩
    · intro s2 hs
      have herr : expand_args args = ExpandOut.err s := by rw [ha, hgo]
      unfold expand_args_error
      rw [herr]
    · intro specs hs
      rw [ha, hgo] at hs
      exact ExpandOut.noConfusion hs

theorem C7_all_or_nothing_fieldless_witness :
    expand_args_error [toStr "10.0.0.999/24"] = some addrParseError :=
  (C7_all_or_nothing_fieldless [toStr "10.0.0.999/24"]).2.1
    (toStr "10.0.0.999") (by decide)

/-- Claim C9: the expander never inspects the prefix substring of a
token — whenever every embedded address substring parses, expansion
succeeds, whatever the prefix parts contain; in particular `"/abc"`
expands to `"192.168.1.1/abc"`. -/
theorem C9_prefix_not_validated :
    (∀ args : List Str,
      (∀ raw ∈ args, ∀ a, embeddedAddr raw = some a → (parseIpv4 a).isSome = true)
      → ∃ specs, expand_args args = ExpandOut.ok specs)
    ∧ expand_args [toStr "/abc"] = ExpandOut.ok [toStr "192.168.1.1/abc"] := by
  constructor
  · intro args hgood
    rcases expand_go_master args default_ip with
      ⟨specs, hgo, -, -, -⟩ | ⟨s, hgo, hsf, raw, hmem, hEa, hPa⟩
    · exact ⟨specs, hgo⟩
    · have hx := hgood raw hmem s hEa
      rw [hPa] at hx
      exact Bool.noConfusion hx
  · decide

theorem C9_prefix_not_validated_witness :
    ∃ specs, expand_args [toStr "1.2.3.4/xyz"] = ExpandOut.ok specs :=
  C9_prefix_not_validated.1 [toStr "1.2.3.4/xyz"] (by decide)

/-- Claim C10: the `last_ip.unwrap()` in the shorthand branch never
panics — the accumulator is seeded and only ever replaced by `Some`
values — so expansion is total apart from address parse errors. -/
theorem C10_unwrap_safe (args : List Str) :
    expand_args args ≠ ExpandOut.panicked
    ∧ ((∃ specs, expand_args args = ExpandOut.ok specs)
        ∨ (∃ s, expand_args args = ExpandOut.err s)) := by
  refine ⟨expand_go_not_panicked args default_ip, ?_⟩
  rcases expand_go_master args default_ip with ⟨specs, hgo, -, -, -⟩ | ⟨s, hgo, -, -⟩
  · exact Or.inl ⟨specs, hgo⟩
  · exact Or.inr ⟨s, hgo⟩

/-- Claim C3, amended: in explicit-mask mode the engine parses the
*entire* resolved specifier as an address, so any specifier containing a
slash (in particular every `A/p` form) fails with the Invalid-IP-address
error; only a bare dotted-quad specifier succeeds, and then its value is
the network's address. -/
theorem C3_mask_mode_parses_whole :
    (∀ (s M : Str), '/' ∈ s → parse_network s (some M) = Except.error ParseErr.invalidIp)
    ∧ (∀ (A M : Str) (a m : Nat), parseIpv4 A = some a → parseIpv4 M = some m →
        ∃ net, parse_network A (some M) = Except.ok net ∧ net.addr = a) := by
  constructor
  · intro s M hs
    simp only [parse_network]
    rw [parseIpv4_of_slash hs]
  · intro A M a m hA hM
    exact ⟨⟨a, 32 - trailing_zeros m⟩, parse_mask_ok hA hM, rfl⟩

/-- Claim C3 fails on the code: with an explicit mask, the resolved
specifier `10.0.0.1/24` is not stripped of its prefix suffix — parsing
errors out instead of succeeding with address `10.0.0.1`. -/
theorem C3_counterexample :
    parse_network (toStr "10.0.0.1/24") (some (toStr "255.255.255.0"))
      = Except.error ParseErr.invalidIp := by rfl

theorem C3_mask_mode_parses_whole_witness :
    ∃ net, parse_network (toStr "10.0.0.1") (some (toStr "255.255.255.0"))
      = Except.ok net ∧ net.addr = 167772161 :=
  C3_mask_mode_parses_whole.2 (toStr "10.0.0.1") (toStr "255.255.255.0")
    167772161 4294967040 (by rfl) (by rfl)

/-- Claim C4: with an explicit mask, the derived prefix length is
`32 - trailingZeros(mask)` with no contiguity validation, and in
particular mask `0.0.0.0` yields prefix 0, `255.255.248.0` yields 21 and
`255.255.255.255` yields 32. -/
theorem C4_mask_trailing_zeros :
    (∀ (A M : Str) (a m : Nat), parseIpv4 A = some a → parseIpv4 M = some m →
      ∃ net, parse_network A (some M) = Except.ok net
        ∧ net.prefixLen = 32 - trailing_zeros m)
    ∧ parse_network (toStr "10.0.0.1") (some (toStr "0.0.0.0"))
        = Except.ok ⟨167772161, 0⟩
    ∧ parse_network (toStr "10.0.0.1") (some (toStr "255.255.248.0"))
        = Except.ok ⟨167772161, 21⟩
    ∧ parse_network (toStr "10.0.0.1") (some (toStr "255.255.255.255"))
        = Except.ok ⟨167772161, 32⟩ := by
  refine ⟨?_, by rfl, by rfl, by rfl⟩
  intro A M a m hA hM
  exact ⟨⟨a, 32 - trailing_zeros m⟩, parse_mask_ok hA hM, rfl⟩

theorem C4_mask_trailing_zeros_witness :
    ∃ net, parse_network (toStr "10.0.0.1") (some (toStr "255.255.248.0"))
      = Except.ok net ∧ net.prefixLen = 32 - trailing_zeros 4294965248 :=
  C4_mask_trailing_zeros.1 (toStr "10.0.0.1") (toStr "255.255.248.0")
    167772161 4294965248 (by rfl) (by rfl)

/-- Claim C8: for any parsed mask value the derived prefix
`32 - trailing_zeros(mask)` lies in `[0, 32]` (the trailing-zero count is
at most 32), so the network-construction failure branch of
`parse_network` is unreachable in explicit-mask mode. -/
theorem C8_buildFail_unreachable (M : Str) (m : Nat) (hM : parseIpv4 M = some m) :
    trailing_zeros m ≤ 32 ∧ 32 - trailing_zeros m ≤ 32
    ∧ ∀ s : Str, parse_network s (some M) ≠ Except.error ParseErr.buildFail := by
  refine ⟨trailing_zeros_le m, Nat.sub_le _ _, ?_⟩
  intro s
  simp only [parse_network]
  cases hA : parseIpv4 s with
  | none => simp
  | some ip =>
    rw [hM]
    simp only [Ipv4Network.new]
    rw [if_pos (Nat.sub_le _ _)]
    simp

theorem C8_buildFail_unreachable_witness :
    trailing_zeros 4278255360 ≤ 32 ∧ 32 - trailing_zeros 4278255360 ≤ 32
    ∧ ∀ s : Str, parse_network s (some (toStr "255.0.255.0"))
        ≠ Except.error ParseErr.buildFail :=
  C8_buildFail_unreachable (toStr "255.0.255.0") 4278255360 (by rfl)

/-- Claim C5: for every prefix length in range, the total address count
is exactly `2 ^ (32 - p)` with no wraparound at `p = 0` (where it is
`2 ^ 32`), and the usable count is `count - 2` when `count > 2` and `0`
otherwise. -/
theorem C5_counts (p : Nat) (hp : p ≤ 32) :
    countOf p = 2 ^ (32 - p)
    ∧ usableOf p = (if 2 < countOf p then countOf p - 2 else 0)
    ∧ countOf 0 = 2 ^ 32 := by
  refine ⟨countOf_eq hp, rfl, ?_⟩
  rw [countOf_eq (by omega : (0:Nat) ≤ 32)]

theorem C5_counts_witness :
    countOf 0 = 2 ^ (32 - 0)
    ∧ usableOf 0 = (if 2 < countOf 0 then countOf 0 - 2 else 0)
    ∧ countOf 0 = 2 ^ 32 :=
  C5_counts 0 (by decide)

/-- Claim C2, amended: when the count is 1 (prefix 32) the stanza still
contains the header and the network, broadcast and netmask lines,
followed by a lone "1 Address Total:" label line; the first/last host
and usable-count lines are omitted, but the broadcast line is not, and
there is no single combined address line. -/
theorem C2_single_address_stanza (net : Ipv4Network) (hp : net.prefixLen = 32) :
    print_network net = [Line.header net.network 32, Line.network net.network,
      Line.broadcast net.broadcast, Line.netmask net.mask, Line.oneAddressTotal] := by
  unfold print_network
  rw [hp]
  rw [if_pos (show countOf 32 = 1 by rfl)]
  rfl

/-- Claim C2 fails on the code: for the single-address network
`192.168.1.0/32` (count = 1) the printed stanza does contain a broadcast
line, which the claim says is omitted. -/
theorem C2_counterexample :
    Line.broadcast 3232235776 ∈ print_network ⟨3232235776, 32⟩ := by decide

theorem C2_single_address_stanza_witness :
    print_network ⟨3232235776, 32⟩
      = [Line.header (Ipv4Network.network ⟨3232235776, 32⟩) 32,
         Line.network (Ipv4Network.network ⟨3232235776, 32⟩),
         Line.broadcast (Ipv4Network.broadcast ⟨3232235776, 32⟩),
         Line.netmask (Ipv4Network.mask ⟨3232235776, 32⟩), Line.oneAddressTotal] :=
  C2_single_address_stanza ⟨3232235776, 32⟩ rfl

/-- Claim C6: the first-host and last-host lines are emitted exactly when
the usable count is positive, and they then display the network address
plus one and the broadcast address minus one. -/
theorem C6_host_lines (net : Ipv4Network) (h32 : net.addr < 2 ^ 32)
    (hp : net.prefixLen ≤ 32) :
    ((∃ a, Line.firstHost a ∈ print_network net) ↔ 0 < usableOf net.prefixLen)
    ∧ ((∃ a, Line.lastHost a ∈ print_network net) ↔ 0 < usableOf net.prefixLen)
    ∧ (∀ a, Line.firstHost a ∈ print_network net → a = net.network + 1)
    ∧ (∀ a, Line.lastHost a ∈ print_network net → a = net.broadcast - 1) := by
  have hcount := countOf_eq hp
  by_cases h1 : countOf net.prefixLen = 1
  · have hu : usableOf net.prefixLen = 0 := by
      unfold usableOf
      rw [h1]
      norm_num
    unfold print_network
    rw [if_pos h1, hu]
    refine ⟨?_, ?_, ?_, ?_⟩ <;> simp
  · by_cases h2 : usableOf net.prefixLen = 0
    · unfold print_network
      rw [if_neg h1, h2]
      refine ⟨?_, ?_, ?_, ?_⟩ <;> simp
    · have hu : 0 < usableOf net.prefixLen := Nat.pos_of_ne_zero h2
      have hk2 : 2 < 2 ^ (32 - net.prefixLen) := by
        by_contra hle
        push_neg at hle
        apply h2
        unfold usableOf
        rw [hcount, if_neg (by omega)]
      have hke : 2 ≤ 32 - net.prefixLen := by
        by_contra hlt
        push_neg at hlt
        have h3 : 2 ^ (32 - net.prefixLen) ≤ 2 ^ 1 :=
          Nat.pow_le_pow_right (by norm_num) (by omega)
        norm_num at h3
        omega
      have hpow4 : 4 ≤ 2 ^ (32 - net.prefixLen) := by
        calc (4:Nat) = 2 ^ 2 := by norm_num
        _ ≤ 2 ^ (32 - net.prefixLen) := Nat.pow_le_pow_right (by norm_num) hke
      have hpow32 : 2 ^ (32 - net.prefixLen) ≤ 2 ^ 32 :=
        Nat.pow_le_pow_right (by norm_num) (by omega)
      have e32 : (2:Nat) ^ 32 = 4294967296 := by norm_num
      have hmask : net.mask = 2 ^ 32 - 2 ^ (32 - net.prefixLen) := rfl
      have hnet_le : net.network ≤ 2 ^ 32 - 4 := by
        have h3 : net.network ≤ net.mask := Nat.and_le_right
        rw [hmask] at h3
        omega
      have hfirst : (net.network + 1) % 2 ^ 32 = net.network + 1 :=
        Nat.mod_eq_of_lt (by omega)
      have hcm : 2 ^ 32 - 1 - net.mask = 2 ^ (32 - net.prefixLen) - 1 := by
        rw [hmask]
        omega
      have hbdef : net.broadcast = Nat.lor net.addr (2 ^ (32 - net.prefixLen) - 1) := by
        unfold Ipv4Network.broadcast
        rw [hcm]
      have hblt : net.broadcast < 2 ^ 32 := by
        rw [hbdef]
        exact Nat.or_lt_two_pow h32 (by omega)
      have hcmodd : (2 ^ (32 - net.prefixLen) - 1) % 2 = 1 := by
        have hdvd : (2:Nat) ∣ 2 ^ (32 - net.prefixLen) :=
          dvd_pow_self 2 (by omega : 32 - net.prefixLen ≠ 0)
        omega
      have hodd : net.broadcast % 2 = 1 := by
        have htb := Nat.testBit_lor net.addr (2 ^ (32 - net.prefixLen) - 1) 0
        rw [Nat.testBit_zero, Nat.testBit_zero, Nat.testBit_zero] at htb
        rw [hbdef]
        simp only [hcmodd, decide_True, Bool.or_true] at htb
        exact of_decide_eq_true htb
      have hlast : (net.broadcast + (2 ^ 32 - 1)) % 2 ^ 32 = net.broadcast - 1 := by
        have hsplit : net.broadcast + (2 ^ 32 - 1) = (net.broadcast - 1) + 2 ^ 32 := by
          omega
        rw [hsplit, Nat.add_mod_right]
        exact Nat.mod_eq_of_lt (by omega)
      unfold print_network
      rw [if_neg h1, if_pos hu, hfirst, hlast]
      refine ⟨?_, ?_, ?_, ?_⟩
      · exact ⟨fun _ => hu, fun _ => ⟨net.network + 1, by simp⟩⟩
      · exact ⟨fun _ => hu, fun _ => ⟨net.broadcast - 1, by simp⟩⟩
      · intro a ha
        simp at ha
        exact ha
      · intro a ha
        simp at ha
        exact ha

theorem C6_host_lines_witness :
    ((∃ a, Line.firstHost a ∈ print_network ⟨167772160, 24⟩)
      ↔ 0 < usableOf (Ipv4Network.prefixLen ⟨167772160, 24⟩))
    ∧ ((∃ a, Line.lastHost a ∈ print_network ⟨167772160, 24⟩)
      ↔ 0 < usableOf (Ipv4Network.prefixLen ⟨167772160, 24⟩))
    ∧ (∀ a, Line.firstHost a ∈ print_network ⟨167772160, 24⟩
        → a = Ipv4Network.network ⟨167772160, 24⟩ + 1)
    ∧ (∀ a, Line.lastHost a ∈ print_network ⟨167772160, 24⟩
        → a = Ipv4Network.broadcast ⟨167772160, 24⟩ - 1) :=
  C6_host_lines ⟨167772160, 24⟩ (by norm_num) (by norm_num)

end Cidr
